import Mathlib

/-!
Shallow embedding of the `node_upload` repository: the Express server
(`upload_server/app.js`, endpoints `/upload-chunk` and `/merge-chunks`) and the
Vue client (`upload_front/src/pages/Home.vue`, the image worker and the axios
wrapper).  Filesystem state is modelled per `fileId`: the transient chunk
directory, the durable completion marker, and the artifact directory.  Byte
blobs are `List Nat`.  Side-effecting calls additionally emit an event trace so
that ordering properties (marker write vs. chunk cleanup, chunk-storage reads,
resume-record removal vs. merge request) can be stated.
-/

/-- Association-list update with overwrite semantics, modelling a filesystem
write to a keyed location (`moveSync` with `overwrite: true`, `writeFile`,
`createWriteStream` truncation). -/
def setA {α β : Type} [DecidableEq α] : List (α × β) → α → β → List (α × β)
  | [], k, v => [(k, v)]
  | p :: t, k, v => if p.1 = k then setA t k v else p :: setA t k v

/-- Association-list lookup, modelling reading a keyed location; `none` means
the file does not exist (`existsSync` false). -/
def getA {α β : Type} [DecidableEq α] : List (α × β) → α → Option β
  | [], _ => none
  | p :: t, k => if p.1 = k then some p.2 else getA t k

theorem getA_setA_same {α β : Type} [DecidableEq α] (l : List (α × β)) (k : α) (v : β) :
    getA (setA l k v) k = some v := by
  induction l with
  | nil => simp [getA, setA]
  | cons p t ih =>
    simp only [setA]
    by_cases hp : p.1 = k
    · rw [if_pos hp]
      exact ih
    · rw [if_neg hp]
      simp only [getA]
      rw [if_neg hp]
      exact ih

theorem getA_setA_other {α β : Type} [DecidableEq α] (l : List (α × β)) (k k' : α) (v : β)
    (h : k' ≠ k) : getA (setA l k v) k' = getA l k' := by
  induction l with
  | nil => simp [getA, setA, Ne.symm h]
  | cons p t ih =>
    simp only [setA, getA]
    by_cases hp : p.1 = k
    · rw [if_pos hp, ih, if_neg (fun hh : p.1 = k' => h (hh ▸ hp))]
    · rw [if_neg hp]
      simp only [getA]
      by_cases hp' : p.1 = k'
      · rw [if_pos hp', if_pos hp']
      · rw [if_neg hp', if_neg hp', ih]

/-! ## Server model (`upload_server/app.js`) -/

/-- Per-`fileId` server filesystem state: the transient chunk directory
(`temp_chunks/<fileId>`, `none` when the directory does not exist), the durable
completion marker (`upload_completed/<fileId>`, contents = saved final
filename), and the artifact directory (`uploads/`, name ↦ bytes). -/
structure MergeState where
  chunkDir : Option (List (Nat × List Nat))
  marker : Option String
  artifacts : List (String × List Nat)
deriving DecidableEq

/-- Filesystem events emitted by the `/merge-chunks` handler, in program
order. -/
inductive Ev where
  | checkMarker
  | readMarker
  | checkArtifact (name : String)
  | removeMarker
  | checkChunkDir
  | createStream (name : String)
  | checkChunk (i : Nat)
  | readChunk (i : Nat)
  | removeChunkDir
  | writeMarker (name : String)
deriving DecidableEq

/-- Events that touch the per-transfer chunk storage (`temp_chunks/<fileId>`). -/
def Ev.isChunkAccess : Ev → Bool
  | .checkChunkDir => true
  | .checkChunk _ => true
  | .readChunk _ => true
  | .removeChunkDir => true
  | _ => false

def Ev.isRemoveChunkDir : Ev → Bool
  | .removeChunkDir => true
  | _ => false

def Ev.isWriteMarker : Ev → Bool
  | .writeMarker _ => true
  | _ => false

/-- Result of `/merge-chunks`: HTTP 200 with the final filename, or HTTP 400
with a message. -/
inductive MergeRes where
  | ok (filename : String)
  | badRequest (message : String)
deriving DecidableEq

/-- Message sent with HTTP 400 when the chunk directory does not exist. -/
def noDirMsg : String := "分块目录不存在，请重新上传"

/-- Message sent with HTTP 400 when chunk `i` is missing. -/
def missingChunkMsg (i : Nat) : String := "分块 " ++ toString i ++ " 不存在，请重新上传"

/-- Node `path.extname`: the substring from the last dot, empty when there is
no dot or the only dot is the first character. -/
def extname (s : String) : String :=
  match ((s.data.enum.filter (fun p => p.2 == '.')).map (fun p => p.1)).getLast? with
  | none => ""
  | some 0 => ""
  | some i => ⟨s.data.drop i⟩

/-- Final artifact name: `basename-Date.now()ext` (app.js lines 133-135); the
current time is passed in as `now`. -/
def finalFileName (filename : String) (now : Nat) : String :=
  let ext := extname filename
  let base : String := ⟨filename.data.take (filename.data.length - ext.data.length)⟩
  base ++ "-" ++ toString now ++ ext

/-- The merge loop (app.js lines 141-156): for `i` over the index list, check
that `chunk-i` exists; on the first missing index stop with `some i`, otherwise
read the chunk and append its bytes to the write stream.  Returns (missing
index if any, bytes written to the stream, trace). -/
def mergeLoop (dir : List (Nat × List Nat)) : List Nat → Option Nat × List Nat × List Ev
  | [] => (none, [], [])
  | i :: rest =>
    match getA dir i with
    | none => (some i, [], [Ev.checkChunk i])
    | some b =>
      let r := mergeLoop dir rest
      (r.1, b ++ r.2.1, Ev.checkChunk i :: Ev.readChunk i :: r.2.2)

/-- The reassembly part of `/merge-chunks` (app.js lines 123-186), entered when
the completion-marker fast path did not return.  The write stream is created —
and hence the artifact file comes into existence — before any chunk existence
check; on a missing chunk the stream is closed but the partial file is not
removed.  On success the chunk directory is removed and then the completion
marker is written. -/
def mergeBody (st : MergeState) (filename : String) (totalChunks now : Nat) :
    MergeRes × MergeState × List Ev :=
  match st.chunkDir with
  | none => (.badRequest noDirMsg, st, [Ev.checkChunkDir])
  | some dir =>
    let fn := finalFileName filename now
    let r := mergeLoop dir (List.range totalChunks)
    match r.1 with
    | some i =>
      (.badRequest (missingChunkMsg i),
       { st with artifacts := setA st.artifacts fn r.2.1 },
       Ev.checkChunkDir :: Ev.createStream fn :: r.2.2)
    | none =>
      (.ok fn,
       { chunkDir := none, marker := some fn, artifacts := setA st.artifacts fn r.2.1 },
       Ev.checkChunkDir :: Ev.createStream fn :: r.2.2 ++ [Ev.removeChunkDir, Ev.writeMarker fn])

/-- The `/merge-chunks` handler (app.js lines 84-195).  First the completion
marker is checked: if it exists and the artifact it names still exists, the
saved name is returned immediately (idempotency fast path); if the artifact is
gone the stale marker is removed and reassembly proceeds. -/
def mergeChunks (st : MergeState) (filename : String) (totalChunks now : Nat) :
    MergeRes × MergeState × List Ev :=
  match st.marker with
  | some saved =>
    if (getA st.artifacts saved).isSome then
      (.ok saved, st, [Ev.checkMarker, Ev.readMarker, Ev.checkArtifact saved])
    else
      let r := mergeBody { st with marker := none } filename totalChunks now
      (r.1, r.2.1,
       [Ev.checkMarker, Ev.readMarker, Ev.checkArtifact saved, Ev.removeMarker] ++ r.2.2)
  | none =>
    let r := mergeBody st filename totalChunks now
    (r.1, r.2.1, Ev.checkMarker :: r.2.2)

/-- The `/upload-chunk` handler (app.js lines 48-81) for one `fileId`: lazily
create the chunk directory (`ensureDirSync`) and store the blob under
`chunk-<chunkNumber>`, overwriting any previous blob at that key. -/
def receiveChunk (st : MergeState) (chunkNumber : Nat) (bytes : List Nat) : MergeState :=
  { st with chunkDir := some (setA (st.chunkDir.getD []) chunkNumber bytes) }

/-- A sequence of `/upload-chunk` calls in arrival order. -/
def processUploads (st : MergeState) (ups : List (Nat × List Nat)) : MergeState :=
  ups.foldl (fun s u => receiveChunk s u.1 u.2) st

/-- Folding a sequence of keyed overwrites over a chunk directory. -/
def dirFold (d : List (Nat × List Nat)) (ups : List (Nat × List Nat)) : List (Nat × List Nat) :=
  ups.foldl (fun d u => setA d u.1 u.2) d

/-! ## Client model (`upload_front/src/pages/Home.vue`, `utils/imageWorker.js`,
`src/unnamed/part_000` = the axios wrapper `utils/request.js`) -/

/-- Immutable file properties used for identification. -/
structure FileInfo where
  name : String
  size : Nat
  lastModified : Nat
deriving DecidableEq

/-- A file handed to the uploader; `originalFile` models the `_originalFile`
property attached to compressed files (Home.vue lines 130-134). -/
structure UploadFile where
  info : FileInfo
  originalFile : Option FileInfo
deriving DecidableEq

/-- One character of `name.replace(/[^a-zA-Z0-9.-]/g, '_')` (Home.vue line 62). -/
def sanitizeChar (c : Char) : Char :=
  if ('a' ≤ c ∧ c ≤ 'z') ∨ ('A' ≤ c ∧ c ≤ 'Z') ∨ ('0' ≤ c ∧ c ≤ '9') ∨ c = '.' ∨ c = '-' then c
  else '_'

/-- The sanitized file name. -/
def safeName (s : String) : String := ⟨s.data.map sanitizeChar⟩

/-- Home.vue `getFileIdentifier` (lines 58-64): uses `_originalFile` when
present, otherwise the file itself, and returns
`safeName_size_lastModified`. -/
def getFileIdentifier (f : UploadFile) : String :=
  let o := f.originalFile.getD f.info
  safeName o.name ++ "_" ++ toString o.size ++ "_" ++ toString o.lastModified

/-- The localStorage key of the resume record (Home.vue line 233). -/
def progressKey (fileId : String) : String := "upload_" ++ fileId

/-- Home.vue line 48. -/
def maxSizeInMB : Nat := 3

/-- Outcome of `beforeUpload` (with the worker initialized): either the upload
is cancelled (`return false`) or a compression task is dispatched and the file
proceeds to the chunked-upload pipeline. -/
inductive BeforeUploadRes where
  | reject
  | compressTask
deriving DecidableEq

/-- Home.vue line 106: `file.size / 1024 / 1024 < maxSizeInMB`.  The JS float
division by `1024` twice is exact (scaling by a power of two), so rational
division models it faithfully. -/
def isUnderLimit (size : Nat) : Bool :=
  decide ((size : ℚ) / 1024 / 1024 < ((maxSizeInMB : Nat) : ℚ))

/-- The size check of `beforeUpload` (Home.vue lines 104-110). -/
def beforeUpload (size : Nat) : BeforeUploadRes :=
  if isUnderLimit size then .compressTask else .reject

/-- One transform submission to the shared worker: its generated `taskId` and
its payload (abstracted to a `Nat`). -/
structure Submission where
  taskId : String
  payload : Nat
deriving DecidableEq

/-- A message posted back by the image worker: it echoes the `taskId` of the
request it processed (imageWorker.js lines 8-12). -/
structure WorkerReply where
  taskId : String
  result : Nat
deriving DecidableEq

/-- The worker's reply to a submission: the compressed payload together with
the submission's own `taskId`. -/
def workerReply (compress : Nat → Nat) (s : Submission) : WorkerReply :=
  ⟨s.taskId, compress s.payload⟩

/-- Delivery of one worker message to every live listener (Home.vue lines
118-143): each `handleMessage` acts only when `event.data.taskId === taskId`,
in which case it removes itself and resolves with the carried result;
non-matching listeners stay registered. -/
def correlStep (acc : List Submission × List (Submission × Nat)) (r : WorkerReply) :
    List Submission × List (Submission × Nat) :=
  (acc.1.filter (fun t => !(r.taskId == t.taskId)),
   acc.2 ++ (acc.1.filter (fun t => r.taskId == t.taskId)).map (fun t => (t, r.result)))

/-- Broadcast a sequence of worker replies, in arrival order, to the listeners
of the outstanding submissions; returns which submission resolved with which
value. -/
def runReplies (subs : List Submission) (replies : List WorkerReply) : List (Submission × Nat) :=
  (replies.foldl correlStep (subs, [])).2

/-- Client-side events of `uploadFileWithChunks`, in program order. -/
inductive CEv where
  | sendChunk (i : Nat)
  | ackChunk (i : Nat)
  | saveRecord
  | removeRecord
  | mergeRequest
  | mergeSuccess
  | mergeFailure
  | cbSuccess
  | cbError
deriving DecidableEq

/-- Terminal per-file status shown to the user. -/
inductive FileStatus where
  | success
  | error
deriving DecidableEq

/-- Outcome of one run of `uploadFileWithChunks`: terminal status, final
progress value, and the event trace. -/
structure ClientRun where
  status : FileStatus
  progress : Nat
  trace : List CEv
deriving DecidableEq

/-- The `message` of the axios error for a non-2xx response.  The axios
wrapper (`utils/request.js`) installs only a success interceptor
(`response => response.data`), so rejections keep axios's default shape. -/
def axiosErrMsg (code : Nat) : String :=
  "Request failed with status code " ++ toString code

/-- Whether `needle` occurs at the head of `hay`. -/
def leadsWith : List Char → List Char → Bool
  | [], _ => true
  | _ :: _, [] => false
  | c :: cs, d :: ds => c == d && leadsWith cs ds

/-- Whether `needle` occurs anywhere in `hay`. -/
def sliceFound : List Char → List Char → Bool
  | needle, [] => needle.isEmpty
  | needle, d :: ds => leadsWith needle (d :: ds) || sliceFound needle ds

/-- JS `String.prototype.includes`. -/
def strIncludes (hay needle : String) : Bool := sliceFound needle.data hay.data

/-- Home.vue line 361: the tolerated-merge-failure test on the caught error's
message. -/
def toleratedMergeError (msg : String) : Bool :=
  strIncludes msg "分块目录不存在" || strIncludes msg "不存在"

/-- Sending chunk `i` with up to 3 attempts and fixed backoff (Home.vue lines
298-325); `net i r` tells whether attempt `r` succeeds.  On success the index
is acknowledged and appended to the localStorage record. -/
def tryUpload (net : Nat → Nat → Bool) (i : Nat) : Bool × List CEv :=
  if net i 0 then (true, [CEv.sendChunk i, CEv.ackChunk i, CEv.saveRecord])
  else if net i 1 then
    (true, [CEv.sendChunk i, CEv.sendChunk i, CEv.ackChunk i, CEv.saveRecord])
  else if net i 2 then
    (true, [CEv.sendChunk i, CEv.sendChunk i, CEv.sendChunk i, CEv.ackChunk i, CEv.saveRecord])
  else (false, [CEv.sendChunk i, CEv.sendChunk i, CEv.sendChunk i])

/-- The per-chunk loop (Home.vue lines 276-326): indices recorded in the
resume record are skipped, the rest are uploaded in order; a chunk failing all
3 attempts aborts the loop. -/
def chunkLoop (uploaded : List Nat) (net : Nat → Nat → Bool) : List Nat → Bool × List CEv
  | [] => (true, [])
  | i :: rest =>
    if i ∈ uploaded then chunkLoop uploaded net rest
    else
      let r := tryUpload net i
      if r.1 then
        let rr := chunkLoop uploaded net rest
        (rr.1, r.2 ++ rr.2)
      else (false, r.2)

/-- The merge call and its error handling (Home.vue lines 335-373): on a
rejected request the caught error's message is the axios default for the HTTP
code, and the tolerated branch fires only if that message passes
`toleratedMergeError`. -/
def mergePhase (mergeRes : Option Nat) : FileStatus × Nat × List CEv :=
  match mergeRes with
  | none => (.success, 100, [CEv.mergeRequest, CEv.mergeSuccess, CEv.cbSuccess])
  | some code =>
    if toleratedMergeError (axiosErrMsg code) then
      (.success, 100, [CEv.mergeRequest, CEv.mergeFailure, CEv.cbSuccess])
    else (.error, 0, [CEv.mergeRequest, CEv.mergeFailure, CEv.cbError])

/-- The fresh-upload part of `uploadFileWithChunks`: run the chunk loop; on
failure the outer catch fires the error callback; on success the resume record
is removed (line 331) and then the merge is requested (line 336). -/
def freshRun (uploaded : List Nat) (totalChunks : Nat) (net : Nat → Nat → Bool)
    (mergeRes : Option Nat) : ClientRun :=
  let r := chunkLoop uploaded net (List.range totalChunks)
  if r.1 then
    let m := mergePhase mergeRes
    ⟨m.1, m.2.1, r.2 ++ CEv.removeRecord :: m.2.2⟩
  else ⟨.error, 0, r.2 ++ [CEv.cbError]⟩

/-- One run of `uploadFileWithChunks` (Home.vue lines 213-383) for a file with
resume record `uploaded`.  When the record already lists every chunk (lines
246-273) the client first verifies with a merge call: on success the record is
removed after the outcome; on failure the record is removed and a full fresh
upload is started.  Otherwise the fresh-upload path runs.  `mergeNet k` is the
outcome of the k-th merge request of this run (`none` = HTTP 200). -/
def uploadFileWithChunks (uploaded : List Nat) (totalChunks : Nat) (net : Nat → Nat → Bool)
    (mergeNet : Nat → Option Nat) : ClientRun :=
  if uploaded.length = totalChunks then
    match mergeNet 0 with
    | none =>
      ⟨.success, 100, [CEv.mergeRequest, CEv.mergeSuccess, CEv.removeRecord, CEv.cbSuccess]⟩
    | some _ =>
      let rest := freshRun [] totalChunks net (mergeNet 1)
      ⟨rest.status, rest.progress,
       [CEv.mergeRequest, CEv.mergeFailure, CEv.removeRecord] ++ rest.trace⟩
  else freshRun uploaded totalChunks net (mergeNet 0)

/-! ## Server lemmas -/

theorem mergeLoop_all_present (dir : List (Nat × List Nat)) (g : Nat → List Nat) :
    ∀ l : List Nat, (∀ i ∈ l, getA dir i = some (g i)) →
      (mergeLoop dir l).1 = none ∧ (mergeLoop dir l).2.1 = (l.map g).flatten := by
  intro l
  induction l with
  | nil => intro _; simp [mergeLoop]
  | cons i t ih =>
    intro h
    have hi := h i (by simp)
    obtain ⟨ih1, ih2⟩ := ih (fun j hj => h j (by simp [hj]))
    simp [mergeLoop, hi, ih1, ih2]

theorem mergeLoop_app (dir : List (Nat × List Nat)) (g : Nat → List Nat) (l2 : List Nat) :
    ∀ l1 : List Nat, (∀ i ∈ l1, getA dir i = some (g i)) →
      (mergeLoop dir (l1 ++ l2)).1 = (mergeLoop dir l2).1 ∧
      (mergeLoop dir (l1 ++ l2)).2.1 = (l1.map g).flatten ++ (mergeLoop dir l2).2.1 := by
  intro l1
  induction l1 with
  | nil => intro _; simp
  | cons i t ih =>
    intro h
    have hi := h i (by simp)
    obtain ⟨ih1, ih2⟩ := ih (fun j hj => h j (by simp [hj]))
    simp [mergeLoop, hi, ih1, ih2]

theorem mergeLoop_trace_chunk_only (dir : List (Nat × List Nat)) :
    ∀ l : List Nat, ∀ e ∈ (mergeLoop dir l).2.2,
      (∃ i, e = Ev.checkChunk i) ∨ (∃ i, e = Ev.readChunk i) := by
  intro l
  induction l with
  | nil => simp [mergeLoop]
  | cons i t ih =>
    cases hg : getA dir i with
    | none => simp [mergeLoop, hg]
    | some b =>
      intro e he
      simp only [mergeLoop, hg, List.mem_cons] at he
      rcases he with he | he | he
      · exact Or.inl ⟨i, he⟩
      · exact Or.inr ⟨i, he⟩
      · exact ih e he

theorem mergeLoop_no_remove (dir : List (Nat × List Nat)) (l : List Nat) :
    Ev.removeChunkDir ∉ (mergeLoop dir l).2.2 := by
  intro h
  rcases mergeLoop_trace_chunk_only dir l _ h with ⟨i, hi⟩ | ⟨i, hi⟩ <;> cases hi

theorem mergeLoop_no_marker (dir : List (Nat × List Nat)) (l : List Nat) (name : String) :
    Ev.writeMarker name ∉ (mergeLoop dir l).2.2 := by
  intro h
  rcases mergeLoop_trace_chunk_only dir l _ h with ⟨i, hi⟩ | ⟨i, hi⟩ <;> cases hi

theorem mergeBody_ok_post (st : MergeState) (f : String) (total now : Nat) (name : String)
    (h : (mergeBody st f total now).1 = .ok name) :
    (mergeBody st f total now).2.1.marker = some name ∧
      ((getA (mergeBody st f total now).2.1.artifacts name).isSome = true) := by
  rcases hd : st.chunkDir with _ | dir
  · simp [mergeBody, hd] at h
  · rcases hr : (mergeLoop dir (List.range total)).1 with _ | i
    · simp only [mergeBody, hd, hr] at h ⊢
      have hn : finalFileName f now = name := by
        simpa using h
      subst hn
      simp [getA_setA_same]
    · simp [mergeBody, hd, hr] at h

theorem merge_ok_post (st : MergeState) (f : String) (total now : Nat) (name : String)
    (st1 : MergeState) (tr : List Ev)
    (h : mergeChunks st f total now = (.ok name, st1, tr)) :
    st1.marker = some name ∧ ((getA st1.artifacts name).isSome = true) := by
  cases hm : st.marker with
  | none =>
    simp only [mergeChunks, hm, Prod.mk.injEq] at h
    obtain ⟨h1, h2, _⟩ := h
    rw [← h2]
    exact mergeBody_ok_post st f total now name h1
  | some saved =>
    by_cases ha : (getA st.artifacts saved).isSome
    · simp only [mergeChunks, hm, if_pos ha, Prod.mk.injEq, MergeRes.ok.injEq] at h
      obtain ⟨h1, h2, _⟩ := h
      rw [← h2, ← h1]
      exact ⟨hm, ha⟩
    · simp only [mergeChunks, hm, if_neg ha, Prod.mk.injEq] at h
      obtain ⟨h1, h2, _⟩ := h
      rw [← h2]
      exact mergeBody_ok_post { st with marker := none } f total now name h1

theorem mergeBody_ok_trace (st : MergeState) (f : String) (total now : Nat) (name : String)
    (h : (mergeBody st f total now).1 = .ok name) :
    ∃ tr0, (mergeBody st f total now).2.2 = tr0 ++ [Ev.removeChunkDir, Ev.writeMarker name] ∧
      Ev.writeMarker name ∉ tr0 ∧ Ev.removeChunkDir ∉ tr0 := by
  rcases hd : st.chunkDir with _ | dir
  · simp [mergeBody, hd] at h
  · rcases hr : (mergeLoop dir (List.range total)).1 with _ | i
    · simp only [mergeBody, hd, hr, MergeRes.ok.injEq] at h ⊢
      refine ⟨Ev.checkChunkDir :: Ev.createStream (finalFileName f now) ::
        (mergeLoop dir (List.range total)).2.2, ?_, ?_, ?_⟩
      · rw [h]
      · simp [h, mergeLoop_no_marker]
      · simp [mergeLoop_no_remove]
    · simp [mergeBody, hd, hr] at h

theorem processUploads_marker (ups : List (Nat × List Nat)) :
    ∀ st : MergeState, (processUploads st ups).marker = st.marker := by
  induction ups with
  | nil => intro st; rfl
  | cons u t ih =>
    intro st
    simpa [processUploads, receiveChunk] using ih (receiveChunk st u.1 u.2)

theorem processUploads_artifacts (ups : List (Nat × List Nat)) :
    ∀ st : MergeState, (processUploads st ups).artifacts = st.artifacts := by
  induction ups with
  | nil => intro st; rfl
  | cons u t ih =>
    intro st
    simpa [processUploads, receiveChunk] using ih (receiveChunk st u.1 u.2)

theorem processUploads_chunkDir (ups : List (Nat × List Nat)) :
    ∀ (st : MergeState) (d : List (Nat × List Nat)), st.chunkDir = some d →
      (processUploads st ups).chunkDir = some (dirFold d ups) := by
  induction ups with
  | nil =>
    intro st d h
    simpa [processUploads, dirFold] using h
  | cons u t ih =>
    intro st d h
    have hstep : (receiveChunk st u.1 u.2).chunkDir = some (setA d u.1 u.2) := by
      simp [receiveChunk, h]
    simpa [processUploads, dirFold] using ih (receiveChunk st u.1 u.2) (setA d u.1 u.2) hstep

theorem processUploads_chunkDir_of_ne (ups : List (Nat × List Nat)) (hne : ups ≠ []) :
    (processUploads ⟨none, none, []⟩ ups).chunkDir = some (dirFold [] ups) := by
  cases ups with
  | nil => exact absurd rfl hne
  | cons u t =>
    have h0 : (receiveChunk ⟨none, none, []⟩ u.1 u.2).chunkDir = some (setA [] u.1 u.2) := rfl
    simpa [processUploads, dirFold] using processUploads_chunkDir t (receiveChunk ⟨none, none, []⟩ u.1 u.2) (setA [] u.1 u.2) h0

theorem getA_dirFold_not_mem (L : List (Nat × List Nat)) :
    ∀ (d : List (Nat × List Nat)) (i : Nat), i ∉ L.map Prod.fst →
      getA (dirFold d L) i = getA d i := by
  induction L with
  | nil => intro d i _; rfl
  | cons u t ih =>
    intro d i hi
    simp only [List.map_cons, List.mem_cons] at hi
    push_neg at hi
    have hrec := ih (setA d u.1 u.2) i hi.2
    rw [show dirFold d (u :: t) = dirFold (setA d u.1 u.2) t from rfl, hrec,
        getA_setA_other d u.1 i u.2 hi.1]

theorem getA_dirFold_mem (L : List (Nat × List Nat)) :
    ∀ (d : List (Nat × List Nat)) (i : Nat) (b : List Nat),
      (L.map Prod.fst).Nodup → (i, b) ∈ L → getA (dirFold d L) i = some b := by
  induction L with
  | nil => intro d i b _ h; cases h
  | cons u t ih =>
    intro d i b hnd hm
    simp only [List.map_cons, List.nodup_cons] at hnd
    rcases List.mem_cons.mp hm with heq | hmem
    · subst heq
      rw [show dirFold d ((i, b) :: t) = dirFold (setA d i b) t from rfl,
          getA_dirFold_not_mem t (setA d i b) i (by simpa using hnd.1),
          getA_setA_same]
    · exact ih (setA d u.1 u.2) i b hnd.2 hmem

/-- C1: after a successful merge for a `fileId`, a second `/merge-chunks` call
with the same `(fileId, filename, totalChunks)` returns the same final
artifact name, leaves the server state unchanged (so no second artifact is
created), and its trace is exactly the completion-marker fast path, which
contains no chunk-storage access. -/
theorem merge_second_call_idempotent (st st1 : MergeState) (f : String) (total now now2 : Nat)
    (name : String) (tr : List Ev)
    (h : mergeChunks st f total now = (.ok name, st1, tr)) :
    mergeChunks st1 f total now2 =
      (.ok name, st1, [Ev.checkMarker, Ev.readMarker, Ev.checkArtifact name]) ∧
    ∀ e ∈ ([Ev.checkMarker, Ev.readMarker, Ev.checkArtifact name] : List Ev),
      e.isChunkAccess = false := by
  obtain ⟨hm, ha⟩ := merge_ok_post st f total now name st1 tr h
  constructor
  · simp [mergeChunks, hm, ha]
  · intro e he
    simp only [List.mem_cons, List.not_mem_nil, or_false] at he
    rcases he with rfl | rfl | rfl <;> rfl

/-- C1 witness: a concrete successful first merge (one chunk `[1, 2]`), then
the second call hits the fast path. -/
theorem merge_second_call_idempotent_witness :
    mergeChunks ⟨some [(0, [1, 2])], none, []⟩ "a.txt" 1 7 =
      (.ok "a-7.txt", ⟨none, some "a-7.txt", [("a-7.txt", [1, 2])]⟩,
       [Ev.checkMarker, Ev.checkChunkDir, Ev.createStream "a-7.txt", Ev.checkChunk 0,
        Ev.readChunk 0, Ev.removeChunkDir, Ev.writeMarker "a-7.txt"]) ∧
    (mergeChunks ⟨none, some "a-7.txt", [("a-7.txt", [1, 2])]⟩ "a.txt" 1 8 =
       (.ok "a-7.txt", ⟨none, some "a-7.txt", [("a-7.txt", [1, 2])]⟩,
        [Ev.checkMarker, Ev.readMarker, Ev.checkArtifact "a-7.txt"]) ∧
     ∀ e ∈ ([Ev.checkMarker, Ev.readMarker, Ev.checkArtifact "a-7.txt"] : List Ev),
       e.isChunkAccess = false) :=
  ⟨by decide,
   merge_second_call_idempotent ⟨some [(0, [1, 2])], none, []⟩
     ⟨none, some "a-7.txt", [("a-7.txt", [1, 2])]⟩ "a.txt" 1 7 8 "a-7.txt"
     [Ev.checkMarker, Ev.checkChunkDir, Ev.createStream "a-7.txt", Ev.checkChunk 0,
      Ev.readChunk 0, Ev.removeChunkDir, Ev.writeMarker "a-7.txt"] (by decide)⟩

/-- C2: whatever the arrival order of chunks `0..n-1` at `/upload-chunk`, a
merge succeeds and the final artifact's bytes are the concatenation of the
chunk blobs in strictly increasing index order. -/
theorem merge_order_correct (n : Nat) (g : Nat → List Nat) (ups : List (Nat × List Nat))
    (f : String) (now : Nat) (hn : 0 < n)
    (hperm : ups.Perm ((List.range n).map (fun i => (i, g i)))) :
    (mergeChunks (processUploads ⟨none, none, []⟩ ups) f n now).1 =
      .ok (finalFileName f now) ∧
    getA (mergeChunks (processUploads ⟨none, none, []⟩ ups) f n now).2.1.artifacts
      (finalFileName f now) = some (((List.range n).map g).flatten) := by
  have hne : ups ≠ [] := by
    intro h0
    rw [h0] at hperm
    have h2 := List.Perm.eq_nil hperm.symm
    rw [List.map_eq_nil_iff, List.range_eq_nil] at h2
    omega
  have hdir : (processUploads ⟨none, none, []⟩ ups).chunkDir = some (dirFold [] ups) :=
    processUploads_chunkDir_of_ne ups hne
  have hmk : (processUploads ⟨none, none, []⟩ ups).marker = none :=
    processUploads_marker ups ⟨none, none, []⟩
  have harts : (processUploads ⟨none, none, []⟩ ups).artifacts = [] :=
    processUploads_artifacts ups ⟨none, none, []⟩
  have hnd : (ups.map Prod.fst).Nodup := by
    have h1 := hperm.map Prod.fst
    have h2 : (((List.range n).map (fun i => (i, g i))).map Prod.fst) = List.range n := by
      rw [List.map_map, show (Prod.fst ∘ fun i => (i, g i)) = id from rfl, List.map_id]
    rw [h2] at h1
    exact h1.nodup_iff.mpr (List.nodup_range n)
  have hget : ∀ i ∈ List.range n, getA (dirFold [] ups) i = some (g i) := by
    intro i hi
    exact getA_dirFold_mem ups [] i (g i) hnd
      (hperm.mem_iff.mpr (List.mem_map.mpr ⟨i, hi, rfl⟩))
  obtain ⟨hl1, hl2⟩ := mergeLoop_all_present (dirFold [] ups) g (List.range n) hget
  simp only [mergeChunks, hmk, mergeBody, hdir, hl1, hl2, harts]
  exact ⟨trivial, getA_setA_same [] (finalFileName f now) (((List.range n).map g).flatten)⟩

/-- C2 witness: two chunks arriving in reversed order (`1` before `0`). -/
theorem merge_order_correct_witness :
    ((0 : Nat) < 2 ∧
     ([(1, [6]), (0, [5])] : List (Nat × List Nat)).Perm
       ((List.range 2).map (fun i => (i, [i + 5])))) ∧
    ((mergeChunks (processUploads ⟨none, none, []⟩ [(1, [6]), (0, [5])]) "c.png" 2 3).1 =
       .ok (finalFileName "c.png" 3) ∧
     getA (mergeChunks (processUploads ⟨none, none, []⟩ [(1, [6]), (0, [5])]) "c.png" 2 3).2.1.artifacts
       (finalFileName "c.png" 3) = some (((List.range 2).map (fun i => [i + 5])).flatten)) :=
  ⟨⟨by decide, by decide⟩,
   merge_order_correct 2 (fun i => [i + 5]) [(1, [6]), (0, [5])] "c.png" 3 (by decide) (by decide)⟩

/-- C3 counterexample: merging 5 chunks with index 2 absent starts from an
empty artifact directory, returns the retriable error naming index 2, but
leaves behind a final artifact file `a-99.png` holding the bytes of chunks 0
and 1 — the write stream is created before the existence checks, so an
artifact IS created and partially written, contrary to the claim. -/
theorem merge_missing_chunk_cex :
    (mergeChunks ⟨some [(0, [10]), (1, [11]), (3, [13]), (4, [14])], none, []⟩ "a.png" 5 99).1 =
      .badRequest (missingChunkMsg 2) ∧
    (mergeChunks ⟨some [(0, [10]), (1, [11]), (3, [13]), (4, [14])], none, []⟩
        "a.png" 5 99).2.1.artifacts = [("a-99.png", [10, 11])] := by
  decide

/-- C3 as amended: when the least missing index is `i < totalChunks`, merge
returns HTTP 400 with the message naming `i`, and the post state additionally
holds a newly created final artifact file containing exactly the concatenation
of the chunks before `i` (the chunk directory and marker are untouched). -/
theorem merge_missing_chunk_amended (dir : List (Nat × List Nat))
    (arts : List (String × List Nat)) (f : String) (total now i : Nat) (g : Nat → List Nat)
    (hi : i < total) (hmiss : getA dir i = none)
    (hpres : ∀ j, j < i → getA dir j = some (g j)) :
    (mergeChunks ⟨some dir, none, arts⟩ f total now).1 = .badRequest (missingChunkMsg i) ∧
    (mergeChunks ⟨some dir, none, arts⟩ f total now).2.1 =
      ⟨some dir, none, setA arts (finalFileName f now) (((List.range i).map g).flatten)⟩ := by
  obtain ⟨k, hk⟩ : ∃ k, total - i = k + 1 := ⟨total - i - 1, by omega⟩
  have hsplit : List.range total =
      List.range i ++ i :: (List.range k).map (fun x => i + (x + 1)) := by
    have h1 := List.range_add i (total - i)
    rw [show i + (total - i) = total from by omega] at h1
    rw [h1, hk, List.range_succ_eq_map]
    simp [List.map_map, Function.comp_def]
  have happ := mergeLoop_app dir g (i :: (List.range k).map (fun x => i + (x + 1)))
    (List.range i) (fun j hj => hpres j (List.mem_range.mp hj))
  have hhead : mergeLoop dir (i :: (List.range k).map (fun x => i + (x + 1))) =
      (some i, [], [Ev.checkChunk i]) := by
    simp [mergeLoop, hmiss]
  rw [hhead] at happ
  have hl1 : (mergeLoop dir (List.range total)).1 = some i := by
    rw [hsplit]
    exact happ.1
  have hl2 : (mergeLoop dir (List.range total)).2.1 = ((List.range i).map g).flatten := by
    rw [hsplit]
    simpa using happ.2
  simp only [mergeChunks, mergeBody, hl1, hl2]
  refine ⟨?_, ?_⟩ <;> trivial

/-- C3 amended witness: the concrete missing-chunk merge of the
counterexample, with chunks `j < 2` holding bytes `[10 + j]`. -/
theorem merge_missing_chunk_amended_witness :
    ((2 : Nat) < 5 ∧
     getA ([(0, [10]), (1, [11]), (3, [13]), (4, [14])] : List (Nat × List Nat)) 2 = none ∧
     (∀ j, j < 2 →
       getA ([(0, [10]), (1, [11]), (3, [13]), (4, [14])] : List (Nat × List Nat)) j =
         some [10 + j])) ∧
    ((mergeChunks ⟨some [(0, [10]), (1, [11]), (3, [13]), (4, [14])], none, []⟩ "a.png" 5 99).1 =
       .badRequest (missingChunkMsg 2) ∧
     (mergeChunks ⟨some [(0, [10]), (1, [11]), (3, [13]), (4, [14])], none, []⟩ "a.png" 5 99).2.1 =
       ⟨some [(0, [10]), (1, [11]), (3, [13]), (4, [14])], none,
        setA [] (finalFileName "a.png" 99) (((List.range 2).map (fun j => [10 + j])).flatten)⟩) :=
  ⟨⟨by decide, by decide, by decide⟩,
   merge_missing_chunk_amended [(0, [10]), (1, [11]), (3, [13]), (4, [14])] [] "a.png" 5 99 2
     (fun j => [10 + j]) (by decide) (by decide) (by decide)⟩

/-- C4 counterexample: in a concrete successful merge, the chunk directory is
removed at trace position 5 and the completion marker is written at position
6 — cleanup of the transient chunk storage strictly precedes the marker write,
contrary to the claim that the marker is recorded first. -/
theorem merge_marker_order_cex :
    (mergeChunks ⟨some [(0, [7])], none, []⟩ "b.txt" 1 5).2.2 =
      [Ev.checkMarker, Ev.checkChunkDir, Ev.createStream "b-5.txt", Ev.checkChunk 0,
       Ev.readChunk 0, Ev.removeChunkDir, Ev.writeMarker "b-5.txt"] ∧
    (mergeChunks ⟨some [(0, [7])], none, []⟩ "b.txt" 1 5).1 = .ok "b-5.txt" ∧
    ((mergeChunks ⟨some [(0, [7])], none, []⟩ "b.txt" 1 5).2.2.findIdx Ev.isRemoveChunkDir <
      (mergeChunks ⟨some [(0, [7])], none, []⟩ "b.txt" 1 5).2.2.findIdx Ev.isWriteMarker) ∧
    ((mergeChunks ⟨some [(0, [7])], none, []⟩ "b.txt" 1 5).2.2.filter
        Ev.isRemoveChunkDir).length = 1 ∧
    ((mergeChunks ⟨some [(0, [7])], none, []⟩ "b.txt" 1 5).2.2.filter
        Ev.isWriteMarker).length = 1 := by
  decide

/-- C4 as amended: in every successful merge that writes the completion
marker, the trace ends with chunk-directory removal immediately followed by
the marker write, and neither event occurs earlier — so the transient chunk
storage is deleted BEFORE the marker is recorded, not after. -/
theorem merge_cleanup_precedes_marker (st : MergeState) (f : String) (total now : Nat)
    (name : String) (st1 : MergeState) (tr : List Ev)
    (h : mergeChunks st f total now = (.ok name, st1, tr))
    (hmem : Ev.writeMarker name ∈ tr) :
    ∃ tr0, tr = tr0 ++ [Ev.removeChunkDir, Ev.writeMarker name] ∧
      Ev.writeMarker name ∉ tr0 ∧ Ev.removeChunkDir ∉ tr0 := by
  cases hm : st.marker with
  | none =>
    simp only [mergeChunks, hm, Prod.mk.injEq] at h
    obtain ⟨h1, _, h3⟩ := h
    obtain ⟨tr0, ht, hw, hr⟩ := mergeBody_ok_trace st f total now name h1
    refine ⟨Ev.checkMarker :: tr0, ?_, ?_, ?_⟩
    · rw [← h3, ht]
      rfl
    · simp [hw]
    · simp [hr]
  | some saved =>
    by_cases ha : (getA st.artifacts saved).isSome
    · simp only [mergeChunks, hm, if_pos ha, Prod.mk.injEq] at h
      obtain ⟨_, _, h3⟩ := h
      rw [← h3] at hmem
      simp at hmem
    · simp only [mergeChunks, hm, if_neg ha, Prod.mk.injEq] at h
      obtain ⟨h1, _, h3⟩ := h
      obtain ⟨tr0, ht, hw, hr⟩ := mergeBody_ok_trace { st with marker := none } f total now name h1
      refine ⟨[Ev.checkMarker, Ev.readMarker, Ev.checkArtifact saved, Ev.removeMarker] ++ tr0,
        ?_, ?_, ?_⟩
      · rw [← h3, ht]
        rfl
      · simp [hw]
      · simp [hr]

/-- C4 amended witness: the concrete successful merge of the counterexample. -/
theorem merge_cleanup_precedes_marker_witness :
    (mergeChunks ⟨some [(0, [7])], none, []⟩ "b.txt" 1 5 =
      (.ok "b-5.txt", ⟨none, some "b-5.txt", [("b-5.txt", [7])]⟩,
       [Ev.checkMarker, Ev.checkChunkDir, Ev.createStream "b-5.txt", Ev.checkChunk 0,
        Ev.readChunk 0, Ev.removeChunkDir, Ev.writeMarker "b-5.txt"]) ∧
     Ev.writeMarker "b-5.txt" ∈
       [Ev.checkMarker, Ev.checkChunkDir, Ev.createStream "b-5.txt", Ev.checkChunk 0,
        Ev.readChunk 0, Ev.removeChunkDir, Ev.writeMarker "b-5.txt"]) ∧
    ∃ tr0, [Ev.checkMarker, Ev.checkChunkDir, Ev.createStream "b-5.txt", Ev.checkChunk 0,
        Ev.readChunk 0, Ev.removeChunkDir, Ev.writeMarker "b-5.txt"] =
        tr0 ++ [Ev.removeChunkDir, Ev.writeMarker "b-5.txt"] ∧
      Ev.writeMarker "b-5.txt" ∉ tr0 ∧ Ev.removeChunkDir ∉ tr0 :=
  ⟨⟨by decide, by decide⟩,
   merge_cleanup_precedes_marker ⟨some [(0, [7])], none, []⟩ "b.txt" 1 5 "b-5.txt"
     ⟨none, some "b-5.txt", [("b-5.txt", [7])]⟩
     [Ev.checkMarker, Ev.checkChunkDir, Ev.createStream "b-5.txt", Ev.checkChunk 0,
      Ev.readChunk 0, Ev.removeChunkDir, Ev.writeMarker "b-5.txt"] (by decide) (by decide)⟩

/-! ## Client lemmas: worker-task correlation -/

theorem runReplies_acc_mono (replies : List WorkerReply) :
    ∀ (live : List Submission) (acc : List (Submission × Nat)) (x : Submission × Nat),
      x ∈ acc → x ∈ (replies.foldl correlStep (live, acc)).2 := by
  induction replies with
  | nil => intro live acc x hx; simpa using hx
  | cons r rest ih =>
    intro live acc x hx
    simp only [List.foldl_cons]
    exact ih _ _ x (by simp [correlStep, hx])

theorem runReplies_resolves (replies : List WorkerReply) :
    ∀ (live : List Submission) (acc : List (Submission × Nat)) (t : Submission) (v : Nat),
      t ∈ live →
      (∃ r ∈ replies, r.taskId = t.taskId) →
      (∀ r ∈ replies, r.taskId = t.taskId → r.result = v) →
      (t, v) ∈ (replies.foldl correlStep (live, acc)).2 := by
  induction replies with
  | nil =>
    intro live acc t v _ hex _
    obtain ⟨r, hr, _⟩ := hex
    cases hr
  | cons r rest ih =>
    intro live acc t v hlive hex hval
    simp only [List.foldl_cons]
    by_cases hr : r.taskId = t.taskId
    · have hres : r.result = v := hval r (by simp) hr
      apply runReplies_acc_mono
      simp only [correlStep]
      rw [← hres]
      refine List.mem_append_right _ (List.mem_map.mpr ⟨t, ?_, rfl⟩)
      exact List.mem_filter.mpr ⟨hlive, by simp [hr]⟩
    · have hlive' : t ∈ (correlStep (live, acc) r).1 :=
        List.mem_filter.mpr ⟨hlive, by simp [hr]⟩
      obtain ⟨r', hr', htid⟩ := hex
      rcases List.mem_cons.mp hr' with rfl | hr'mem
      · exact absurd htid hr
      · exact ih _ _ t v hlive' ⟨r', hr'mem, htid⟩ (fun q hq hqt => hval q (by simp [hq]) hqt)

theorem runReplies_sound (replies : List WorkerReply) :
    ∀ (live : List Submission) (acc : List (Submission × Nat)) (t : Submission) (v w : Nat),
      (∀ r ∈ replies, r.taskId = t.taskId → r.result = v) →
      (∀ u, (t, u) ∈ acc → u = v) →
      (t, w) ∈ (replies.foldl correlStep (live, acc)).2 → w = v := by
  induction replies with
  | nil =>
    intro live acc t v w _ hacc hw
    exact hacc w (by simpa using hw)
  | cons r rest ih =>
    intro live acc t v w hval hacc hw
    simp only [List.foldl_cons] at hw
    refine ih _ _ t v w (fun q hq hqt => hval q (by simp [hq]) hqt) ?_ hw
    intro u hu
    simp only [correlStep] at hu
    rcases List.mem_append.mp hu with hu | hu
    · exact hacc u hu
    · obtain ⟨t', ht', heq⟩ := List.mem_map.mp hu
      obtain ⟨heq1, heq2⟩ := Prod.mk.injEq .. ▸ heq
      have hmatch : (r.taskId == t'.taskId) = true := (List.mem_filter.mp ht').2
      rw [heq1] at hmatch
      have : r.result = v := hval r (by simp) (by simpa using hmatch)
      rw [← heq2, this]

/-- C5: with pairwise-distinct taskIds among the outstanding submissions and
the shared worker answering each submission with a reply echoing its taskId,
every submission's listener resolves with the result computed for its own
payload, whatever the order in which the worker's replies arrive, and never
with any other value. -/
theorem correlator_isolation (compress : Nat → Nat) (subs : List Submission)
    (replies : List WorkerReply)
    (hnd : (subs.map Submission.taskId).Nodup)
    (hperm : replies.Perm (subs.map (workerReply compress)))
    (t : Submission) (ht : t ∈ subs) :
    (t, compress t.payload) ∈ runReplies subs replies ∧
    ∀ v, (t, v) ∈ runReplies subs replies → v = compress t.payload := by
  have hval : ∀ r ∈ replies, r.taskId = t.taskId → r.result = compress t.payload := by
    intro r hr htid
    obtain ⟨t', ht', rfl⟩ := List.mem_map.mp (hperm.mem_iff.mp hr)
    have ht'' : t' = t := List.inj_on_of_nodup_map hnd ht' ht htid
    rw [ht'']
    rfl
  have hex : ∃ r ∈ replies, r.taskId = t.taskId :=
    ⟨workerReply compress t, hperm.mem_iff.mpr (List.mem_map.mpr ⟨t, ht, rfl⟩), rfl⟩
  refine ⟨runReplies_resolves replies subs [] t _ ht hex hval, ?_⟩
  intro v hv
  exact runReplies_sound replies subs [] t (compress t.payload) v hval (by simp) hv

/-- C5 witness: three concurrent submissions, replies arriving out of order
(`t2` first), each resolving with 10 times its own payload. -/
theorem correlator_isolation_witness :
    ((([⟨"t0", 1⟩, ⟨"t1", 2⟩, ⟨"t2", 3⟩] : List Submission).map Submission.taskId).Nodup ∧
     ([⟨"t2", 30⟩, ⟨"t0", 10⟩, ⟨"t1", 20⟩] : List WorkerReply).Perm
       (([⟨"t0", 1⟩, ⟨"t1", 2⟩, ⟨"t2", 3⟩] : List Submission).map
         (workerReply (fun x => 10 * x))) ∧
     (⟨"t1", 2⟩ : Submission) ∈ ([⟨"t0", 1⟩, ⟨"t1", 2⟩, ⟨"t2", 3⟩] : List Submission)) ∧
    (((⟨"t1", 2⟩ : Submission), 20) ∈
       runReplies [⟨"t0", 1⟩, ⟨"t1", 2⟩, ⟨"t2", 3⟩] [⟨"t2", 30⟩, ⟨"t0", 10⟩, ⟨"t1", 20⟩] ∧
     ∀ v, ((⟨"t1", 2⟩ : Submission), v) ∈
         runReplies [⟨"t0", 1⟩, ⟨"t1", 2⟩, ⟨"t2", 3⟩] [⟨"t2", 30⟩, ⟨"t0", 10⟩, ⟨"t1", 20⟩] →
       v = 20) :=
  ⟨⟨by decide, by decide, by decide⟩,
   correlator_isolation (fun x => 10 * x) [⟨"t0", 1⟩, ⟨"t1", 2⟩, ⟨"t2", 3⟩]
     [⟨"t2", 30⟩, ⟨"t0", 10⟩, ⟨"t1", 20⟩] (by decide) (by decide) ⟨"t1", 2⟩ (by decide)⟩

/-! ## Client lemmas: chunk upload loop -/

theorem tryUpload_events (net : Nat → Nat → Bool) (i : Nat) :
    ∀ e ∈ (tryUpload net i).2,
      e = CEv.sendChunk i ∨ e = CEv.ackChunk i ∨ e = CEv.saveRecord := by
  intro e he
  unfold tryUpload at he
  split_ifs at he <;> simp_all

theorem tryUpload_ack (net : Nat → Nat → Bool) (i : Nat) (h : (tryUpload net i).1 = true) :
    CEv.ackChunk i ∈ (tryUpload net i).2 := by
  unfold tryUpload at h ⊢
  split_ifs at h ⊢ <;> simp_all

theorem chunkLoop_events (U : List Nat) (net : Nat → Nat → Bool) :
    ∀ l : List Nat, ∀ e ∈ (chunkLoop U net l).2,
      (∃ i, i ∈ l ∧ i ∉ U ∧ (e = CEv.sendChunk i ∨ e = CEv.ackChunk i)) ∨
        e = CEv.saveRecord := by
  intro l
  induction l with
  | nil => simp [chunkLoop]
  | cons i t ih =>
    intro e he
    by_cases hu : i ∈ U
    · simp only [chunkLoop, if_pos hu] at he
      rcases ih e he with ⟨j, hj, hju, hje⟩ | hs
      · exact Or.inl ⟨j, List.mem_cons_of_mem i hj, hju, hje⟩
      · exact Or.inr hs
    · simp only [chunkLoop, if_neg hu] at he
      by_cases htr : (tryUpload net i).1
      · rw [if_pos htr] at he
        rcases List.mem_append.mp he with he | he
        · rcases tryUpload_events net i e he with h1 | h1 | h1
          · exact Or.inl ⟨i, List.mem_cons_self i t, hu, Or.inl h1⟩
          · exact Or.inl ⟨i, List.mem_cons_self i t, hu, Or.inr h1⟩
          · exact Or.inr h1
        · rcases ih e he with ⟨j, hj, hju, hje⟩ | hs
          · exact Or.inl ⟨j, List.mem_cons_of_mem i hj, hju, hje⟩
          · exact Or.inr hs
      · rw [if_neg htr] at he
        rcases tryUpload_events net i e he with h1 | h1 | h1
        · exact Or.inl ⟨i, List.mem_cons_self i t, hu, Or.inl h1⟩
        · exact Or.inl ⟨i, List.mem_cons_self i t, hu, Or.inr h1⟩
        · exact Or.inr h1

theorem chunkLoop_send_only (U : List Nat) (net : Nat → Nat → Bool) (l : List Nat) (j : Nat)
    (h : CEv.sendChunk j ∈ (chunkLoop U net l).2) : j ∈ l ∧ j ∉ U := by
  rcases chunkLoop_events U net l _ h with ⟨i, hi, hiu, hie⟩ | hs
  · rcases hie with hie | hie
    · obtain rfl : j = i := by injection hie
      exact ⟨hi, hiu⟩
    · cases hie
  · cases hs

theorem chunkLoop_no_remove (U : List Nat) (net : Nat → Nat → Bool) (l : List Nat) :
    CEv.removeRecord ∉ (chunkLoop U net l).2 := by
  intro h
  rcases chunkLoop_events U net l _ h with ⟨i, _, _, hie | hie⟩ | hs
  · cases hie
  · cases hie
  · cases hs

theorem chunkLoop_no_mergeReq (U : List Nat) (net : Nat → Nat → Bool) (l : List Nat) :
    CEv.mergeRequest ∉ (chunkLoop U net l).2 := by
  intro h
  rcases chunkLoop_events U net l _ h with ⟨i, _, _, hie | hie⟩ | hs
  · cases hie
  · cases hie
  · cases hs

theorem chunkLoop_no_ack_of_mem (U : List Nat) (net : Nat → Nat → Bool) (l : List Nat)
    (j : Nat) (h : CEv.ackChunk j ∈ (chunkLoop U net l).2) : j ∉ U := by
  rcases chunkLoop_events U net l _ h with ⟨i, _, hiu, hie | hie⟩ | hs
  · cases hie
  · obtain rfl : j = i := by injection hie
    exact hiu
  · cases hs

theorem chunkLoop_acks (U : List Nat) (net : Nat → Nat → Bool) :
    ∀ l : List Nat, (chunkLoop U net l).1 = true →
      ∀ i ∈ l, i ∉ U → CEv.ackChunk i ∈ (chunkLoop U net l).2 := by
  intro l
  induction l with
  | nil => intro _ i hi; cases hi
  | cons j t ih =>
    intro hok i hi hiu
    by_cases hu : j ∈ U
    · simp only [chunkLoop, if_pos hu] at hok ⊢
      rcases List.mem_cons.mp hi with rfl | hit
      · exact absurd hu hiu
      · exact ih hok i hit hiu
    · simp only [chunkLoop, if_neg hu] at hok ⊢
      by_cases htr : (tryUpload net j).1
      · rw [if_pos htr] at hok ⊢
        simp only at hok
        rcases List.mem_cons.mp hi with rfl | hit
        · exact List.mem_append_left _ (tryUpload_ack net i htr)
        · exact List.mem_append_right _ (ih hok i hit hiu)
      · rw [if_neg htr] at hok
        simp at hok

theorem mergePhase_shape (mr : Option Nat) :
    ∃ tl, (mergePhase mr).2.2 = CEv.mergeRequest :: tl ∧
      ∀ e ∈ tl, e = CEv.mergeSuccess ∨ e = CEv.mergeFailure ∨
        e = CEv.cbSuccess ∨ e = CEv.cbError := by
  cases mr with
  | none => exact ⟨[CEv.mergeSuccess, CEv.cbSuccess], rfl, by decide⟩
  | some code =>
    by_cases h : toleratedMergeError (axiosErrMsg code)
    · exact ⟨[CEv.mergeFailure, CEv.cbSuccess], by simp [mergePhase, h], by decide⟩
    · exact ⟨[CEv.mergeFailure, CEv.cbError], by simp [mergePhase, h], by decide⟩

/-- C6: with a resume record `U` (and the record not already complete), the
uploader sends chunk requests only for indices not in `U` and below
`totalChunks`, and whenever the merge request is issued, every remaining index
has been acknowledged strictly before it in the trace. -/
theorem resume_skip_correct (U : List Nat) (n : Nat) (net : Nat → Nat → Bool)
    (mergeNet : Nat → Option Nat) (h : U.length ≠ n) :
    (∀ i, CEv.sendChunk i ∈ (uploadFileWithChunks U n net mergeNet).trace →
      i < n ∧ i ∉ U) ∧
    (CEv.mergeRequest ∈ (uploadFileWithChunks U n net mergeNet).trace →
      ∃ tr1 tr2, (uploadFileWithChunks U n net mergeNet).trace =
          tr1 ++ CEv.mergeRequest :: tr2 ∧ CEv.mergeRequest ∉ tr1 ∧
        ∀ i, i < n → i ∉ U → CEv.ackChunk i ∈ tr1) := by
  have hru : uploadFileWithChunks U n net mergeNet = freshRun U n net (mergeNet 0) := by
    simp [uploadFileWithChunks, h]
  rw [hru]
  by_cases hok : (chunkLoop U net (List.range n)).1 = true
  · obtain ⟨tl, htl, htl2⟩ := mergePhase_shape (mergeNet 0)
    have htr : (freshRun U n net (mergeNet 0)).trace =
        (chunkLoop U net (List.range n)).2 ++ CEv.removeRecord :: CEv.mergeRequest :: tl := by
      simp [freshRun, hok, htl]
    rw [htr]
    constructor
    · intro i hi
      rcases List.mem_append.mp hi with hi | hi
      · have hs := chunkLoop_send_only U net (List.range n) i hi
        exact ⟨List.mem_range.mp hs.1, hs.2⟩
      · exfalso
        rcases List.mem_cons.mp hi with h1 | h1
        · cases h1
        rcases List.mem_cons.mp h1 with h2 | h2
        · cases h2
        rcases htl2 _ h2 with h3 | h3 | h3 | h3 <;> cases h3
    · intro _
      refine ⟨(chunkLoop U net (List.range n)).2 ++ [CEv.removeRecord], tl, by simp, ?_, ?_⟩
      · intro hmem
        rcases List.mem_append.mp hmem with hm | hm
        · exact chunkLoop_no_mergeReq U net (List.range n) hm
        · rcases List.mem_cons.mp hm with h1 | h1
          · cases h1
          · cases h1
      · intro i hin hiu
        exact List.mem_append_left _
          (chunkLoop_acks U net (List.range n) hok i (List.mem_range.mpr hin) hiu)
  · have hok' : (chunkLoop U net (List.range n)).1 = false := by
      simpa using hok
    have htr : (freshRun U n net (mergeNet 0)).trace =
        (chunkLoop U net (List.range n)).2 ++ [CEv.cbError] := by
      simp [freshRun, hok']
    rw [htr]
    constructor
    · intro i hi
      rcases List.mem_append.mp hi with hi | hi
      · have hs := chunkLoop_send_only U net (List.range n) i hi
        exact ⟨List.mem_range.mp hs.1, hs.2⟩
      · rcases List.mem_cons.mp hi with h1 | h1
        · cases h1
        · cases h1
    · intro hmr
      exfalso
      rcases List.mem_append.mp hmr with hm | hm
      · exact chunkLoop_no_mergeReq U net (List.range n) hm
      · rcases List.mem_cons.mp hm with h1 | h1
        · cases h1
        · cases h1

/-- C6 witness: acknowledged set `{0, 2, 4}` of 5, all sends succeeding. -/
theorem resume_skip_correct_witness :
    ([0, 2, 4] : List Nat).length ≠ 5 ∧
    ((∀ i, CEv.sendChunk i ∈
        (uploadFileWithChunks [0, 2, 4] 5 (fun _ _ => true) (fun _ => none)).trace →
      i < 5 ∧ i ∉ ([0, 2, 4] : List Nat)) ∧
     (CEv.mergeRequest ∈
        (uploadFileWithChunks [0, 2, 4] 5 (fun _ _ => true) (fun _ => none)).trace →
      ∃ tr1 tr2, (uploadFileWithChunks [0, 2, 4] 5 (fun _ _ => true) (fun _ => none)).trace =
          tr1 ++ CEv.mergeRequest :: tr2 ∧ CEv.mergeRequest ∉ tr1 ∧
        ∀ i, i < 5 → i ∉ ([0, 2, 4] : List Nat) → CEv.ackChunk i ∈ tr1)) :=
  ⟨by decide, resume_skip_correct [0, 2, 4] 5 (fun _ _ => true) (fun _ => none) (by decide)⟩

/-- C7 counterexample: in a fresh upload of one chunk with a successful merge,
the resume record is removed at trace position 3, strictly before the merge
request at position 4 and its outcome at position 5 — the record is cleared
before the merge outcome is known, contrary to the claim. -/
theorem resume_clear_order_cex :
    (uploadFileWithChunks [] 1 (fun _ _ => true) (fun _ => none)).trace =
      [CEv.sendChunk 0, CEv.ackChunk 0, CEv.saveRecord, CEv.removeRecord,
       CEv.mergeRequest, CEv.mergeSuccess, CEv.cbSuccess] ∧
    (uploadFileWithChunks [] 1 (fun _ _ => true) (fun _ => none)).trace.findIdx
        (fun e => e == CEv.removeRecord) <
      (uploadFileWithChunks [] 1 (fun _ _ => true) (fun _ => none)).trace.findIdx
        (fun e => e == CEv.mergeRequest) := by
  decide

/-- C7 as amended: in the fresh-upload path the resume record is removed
exactly once, after every chunk acknowledgement of the session and immediately
BEFORE the merge request is issued (not after its outcome). -/
theorem resume_clear_before_merge_request (U : List Nat) (n : Nat) (net : Nat → Nat → Bool)
    (mergeNet : Nat → Option Nat) (h : U.length ≠ n)
    (hrm : CEv.removeRecord ∈ (uploadFileWithChunks U n net mergeNet).trace) :
    ∃ tr1 tr2, (uploadFileWithChunks U n net mergeNet).trace =
        tr1 ++ CEv.removeRecord :: CEv.mergeRequest :: tr2 ∧
      CEv.removeRecord ∉ tr1 ∧
      ∀ i, CEv.ackChunk i ∈ (uploadFileWithChunks U n net mergeNet).trace →
        CEv.ackChunk i ∈ tr1 := by
  have hru : uploadFileWithChunks U n net mergeNet = freshRun U n net (mergeNet 0) := by
    simp [uploadFileWithChunks, h]
  rw [hru] at hrm ⊢
  by_cases hok : (chunkLoop U net (List.range n)).1 = true
  · obtain ⟨tl, htl, htl2⟩ := mergePhase_shape (mergeNet 0)
    have htr : (freshRun U n net (mergeNet 0)).trace =
        (chunkLoop U net (List.range n)).2 ++ CEv.removeRecord :: CEv.mergeRequest :: tl := by
      simp [freshRun, hok, htl]
    rw [htr]
    refine ⟨(chunkLoop U net (List.range n)).2, tl, rfl, chunkLoop_no_remove U net _, ?_⟩
    intro i hi
    rcases List.mem_append.mp hi with hi | hi
    · exact hi
    · exfalso
      rcases List.mem_cons.mp hi with h1 | h1
      · cases h1
      rcases List.mem_cons.mp h1 with h2 | h2
      · cases h2
      rcases htl2 _ h2 with h3 | h3 | h3 | h3 <;> cases h3
  · have hok' : (chunkLoop U net (List.range n)).1 = false := by
      simpa using hok
    have htr : (freshRun U n net (mergeNet 0)).trace =
        (chunkLoop U net (List.range n)).2 ++ [CEv.cbError] := by
      simp [freshRun, hok']
    rw [htr] at hrm
    exfalso
    rcases List.mem_append.mp hrm with hm | hm
    · exact chunkLoop_no_remove U net _ hm
    · rcases List.mem_cons.mp hm with h1 | h1
      · cases h1
      · cases h1

/-- C7 amended witness: the concrete fresh one-chunk upload of the
counterexample. -/
theorem resume_clear_before_merge_request_witness :
    (([] : List Nat).length ≠ 1 ∧
     CEv.removeRecord ∈ (uploadFileWithChunks [] 1 (fun _ _ => true) (fun _ => none)).trace) ∧
    ∃ tr1 tr2, (uploadFileWithChunks [] 1 (fun _ _ => true) (fun _ => none)).trace =
        tr1 ++ CEv.removeRecord :: CEv.mergeRequest :: tr2 ∧
      CEv.removeRecord ∉ tr1 ∧
      ∀ i, CEv.ackChunk i ∈ (uploadFileWithChunks [] 1 (fun _ _ => true) (fun _ => none)).trace →
        CEv.ackChunk i ∈ tr1 :=
  ⟨⟨by decide, by decide⟩,
   resume_clear_before_merge_request [] 1 (fun _ _ => true) (fun _ => none)
     (by decide) (by decide)⟩

/-- C8: evaluation at the failing input.  All chunks are freshly sent in the
session (record empty, one chunk), the merge request is rejected with HTTP 400
(the server's chunk-directory-missing response).  The error message the client
actually sees is axios's default, which contains neither of the Chinese
fragments the tolerated-success branch tests for — although the server's own
message would pass the test — so the client fires the error callback with
progress 0 instead of the claimed tolerated success. -/
theorem tolerated_branch_unreachable_on_axios_error :
    toleratedMergeError (axiosErrMsg 400) = false ∧
    toleratedMergeError noDirMsg = true ∧
    (uploadFileWithChunks [] 1 (fun _ _ => true) (fun _ => some 400)).status = .error ∧
    (uploadFileWithChunks [] 1 (fun _ _ => true) (fun _ => some 400)).progress = 0 ∧
    CEv.cbError ∈ (uploadFileWithChunks [] 1 (fun _ _ => true) (fun _ => some 400)).trace ∧
    CEv.cbSuccess ∉ (uploadFileWithChunks [] 1 (fun _ _ => true) (fun _ => some 400)).trace := by
  decide

/-- C9: two files with equal size and equal lastModified whose names coincide
after sanitization get the same transfer identifier — hence the same
localStorage resume key (and the same server chunk directory, which is keyed
by this identifier). -/
theorem identifier_collision (f1 f2 : UploadFile)
    (hn : safeName (f1.originalFile.getD f1.info).name =
      safeName (f2.originalFile.getD f2.info).name)
    (hs : (f1.originalFile.getD f1.info).size = (f2.originalFile.getD f2.info).size)
    (hm : (f1.originalFile.getD f1.info).lastModified =
      (f2.originalFile.getD f2.info).lastModified) :
    getFileIdentifier f1 = getFileIdentifier f2 ∧
    progressKey (getFileIdentifier f1) = progressKey (getFileIdentifier f2) := by
  have hid : getFileIdentifier f1 = getFileIdentifier f2 := by
    simp only [getFileIdentifier]
    rw [hn, hs, hm]
  exact ⟨hid, by rw [hid]⟩

/-- C9 witness: `"a b.png"` and `"a?b.png"` differ but sanitize to the same
name; with equal size and lastModified the identifiers and resume keys
coincide. -/
theorem identifier_collision_witness :
    ((("a b.png" : String) ≠ "a?b.png") ∧
     safeName ((⟨⟨"a b.png", 10, 5⟩, none⟩ : UploadFile).originalFile.getD
         (⟨⟨"a b.png", 10, 5⟩, none⟩ : UploadFile).info).name =
       safeName ((⟨⟨"a?b.png", 10, 5⟩, none⟩ : UploadFile).originalFile.getD
         (⟨⟨"a?b.png", 10, 5⟩, none⟩ : UploadFile).info).name ∧
     ((⟨⟨"a b.png", 10, 5⟩, none⟩ : UploadFile).originalFile.getD
         (⟨⟨"a b.png", 10, 5⟩, none⟩ : UploadFile).info).size =
       ((⟨⟨"a?b.png", 10, 5⟩, none⟩ : UploadFile).originalFile.getD
         (⟨⟨"a?b.png", 10, 5⟩, none⟩ : UploadFile).info).size ∧
     ((⟨⟨"a b.png", 10, 5⟩, none⟩ : UploadFile).originalFile.getD
         (⟨⟨"a b.png", 10, 5⟩, none⟩ : UploadFile).info).lastModified =
       ((⟨⟨"a?b.png", 10, 5⟩, none⟩ : UploadFile).originalFile.getD
         (⟨⟨"a?b.png", 10, 5⟩, none⟩ : UploadFile).info).lastModified) ∧
    (getFileIdentifier ⟨⟨"a b.png", 10, 5⟩, none⟩ =
       getFileIdentifier ⟨⟨"a?b.png", 10, 5⟩, none⟩ ∧
     progressKey (getFileIdentifier ⟨⟨"a b.png", 10, 5⟩, none⟩) =
       progressKey (getFileIdentifier ⟨⟨"a?b.png", 10, 5⟩, none⟩)) :=
  ⟨⟨by decide, by decide, by decide, by decide⟩,
   identifier_collision ⟨⟨"a b.png", 10, 5⟩, none⟩ ⟨⟨"a?b.png", 10, 5⟩, none⟩
     (by decide) (by decide) (by decide)⟩

/-- C10: `beforeUpload` cancels the upload exactly when
`size / 1024 / 1024 >= 3` (so the file is never compressed, chunked or sent),
and dispatches the compression task exactly when `size / 1024 / 1024 < 3`. -/
theorem beforeUpload_size_limit (size : Nat) :
    (beforeUpload size = .reject ↔
      ((maxSizeInMB : Nat) : ℚ) ≤ (size : ℚ) / 1024 / 1024) ∧
    (beforeUpload size = .compressTask ↔
      (size : ℚ) / 1024 / 1024 < ((maxSizeInMB : Nat) : ℚ)) := by
  by_cases hq : (size : ℚ) / 1024 / 1024 < ((maxSizeInMB : Nat) : ℚ)
  · simp [beforeUpload, isUnderLimit, hq, not_le.mpr hq]
  · simp [beforeUpload, isUnderLimit, hq, not_lt.mp hq]
